import Mathlib

/-!
Verification development for the tinySQL embeddable engine.

The repository ships only glue code (a ctypes wrapper `bindings/python/example.py`
and ODBC smoke tests); the engine itself lives behind a prebuilt shared library.
Definitions below marked `Modelled from the spec:` embed the engine exactly as
the specification describes it; the Python wrapper `_handle_response` is embedded
directly from its source.
-/

namespace TinySQL

/-- Modelled from the spec: the engine's Value type is missing from the sources.
A tagged union over Integer (64-bit signed), Text, Real, Boolean and Null.
Reals are modelled as exact rationals: the spec demands value-exact round-trips,
which the rational model represents faithfully. -/
inductive Value where
  | null : Value
  | bool (b : Bool) : Value
  | int (i : Int) : Value
  | real (r : Rat) : Value
  | text (s : String) : Value
deriving DecidableEq, Repr

/-- Modelled from the spec: declared column type tags (engine source missing).
DECIMAL and FLOAT are both the Real value kind, hence one `float` tag. -/
inductive ColType where
  | int | text | float | bool
deriving DecidableEq, Repr

/-- Modelled from the spec: a column definition (engine source missing).
Constraints are out of scope for v1, so every column is nullable. -/
structure ColumnDef where
  name : String
  ty : ColType
deriving DecidableEq, Repr

/-- Modelled from the spec: a table schema (engine source missing) — table name
plus an ordered sequence of column definitions. -/
structure TableSchema where
  name : String
  cols : List ColumnDef
deriving DecidableEq, Repr

/-- A row is a fixed-length ordered sequence of values, positionally aligned to
the schema. -/
abbrev Row := List Value

/-- Modelled from the spec: a table owns its schema and its rows in insertion
order (engine source missing). -/
structure Table where
  schema : TableSchema
  rows : List Row
deriving DecidableEq, Repr

/-- Modelled from the spec: the catalog is the ordered collection of tables
(insertion order backs `tableNames`); engine source missing. -/
abbrev Catalog := List Table

/-- ASCII lower-casing of one character code. -/
def lowerNat (n : Nat) : Nat := if 65 ≤ n ∧ n ≤ 90 then n + 32 else n

/-- Case-folded key of an identifier, as a list of character codes. -/
def lowerKey (s : String) : List Nat := s.data.map (fun c => lowerNat c.toNat)

/-- Case-insensitive name comparison used by every catalog and column lookup. -/
def nameEq (a b : String) : Bool := lowerKey a == lowerKey b

/-- Modelled from the spec: case-insensitive table lookup preserving declared
casing (engine source missing). -/
def getTable (c : Catalog) (n : String) : Option Table :=
  c.find? (fun t => nameEq t.schema.name n)

/-- Modelled from the spec: case-insensitive column resolution to a position
(engine source missing). -/
def colIndex (cols : List ColumnDef) (n : String) : Option Nat :=
  cols.findIdx? (fun cd => nameEq cd.name n)

/-- Rank used to totalise the value ordering across type tags (nulls first). -/
def rank : Value → Nat
  | .null => 0
  | .bool _ => 1
  | .int _ => 2
  | .real _ => 3
  | .text _ => 4

/-- Same-rank value comparison (callers guarantee equal ranks). -/
def sameLe : Value → Value → Bool
  | .bool x, .bool y => !x || y
  | .int x, .int y => decide (x ≤ y)
  | .real x, .real y => decide (x ≤ y)
  | .text x, .text y => decide (x ≤ y)
  | _, _ => true

/-- Modelled from the spec: the total value ordering used by ORDER BY (engine
source missing). Nulls sort first, then by type rank, then natural order. -/
def valueLe (a b : Value) : Bool :=
  decide (rank a < rank b) || (rank a == rank b && sameLe a b)

theorem valueLe_total (a b : Value) : valueLe a b = true ∨ valueLe b a = true := by
  unfold valueLe
  rcases Nat.lt_trichotomy (rank a) (rank b) with h | h | h
  · left; simp [h]
  · have hc : sameLe a b = true ∨ sameLe b a = true := by
      cases a <;> cases b <;>
        simp only [rank, sameLe, decide_eq_true_eq, Bool.or_eq_true,
          Bool.not_eq_true'] at h ⊢ <;>
        first
          | omega
          | (left; trivial)
          | exact le_total _ _
          | (rename_i x y; cases x <;> cases y <;> simp)
    rcases hc with hc | hc
    · left; simp [h, hc]
    · right; simp [h.symm, hc]
  · right; simp [h]

theorem sameLe_trans (a b c : Value) (hab : rank a = rank b) (hbc : rank b = rank c)
    (h1 : sameLe a b = true) (h2 : sameLe b c = true) : sameLe a c = true := by
  cases a <;> cases b <;> cases c <;>
    simp only [rank, sameLe, decide_eq_true_eq] at hab hbc h1 h2 ⊢ <;>
    first
      | rfl
      | omega
      | exact le_trans h1 h2
      | (rename_i x y z; cases x <;> cases y <;> cases z <;> simp_all)

theorem valueLe_trans (a b c : Value) (h1 : valueLe a b = true)
    (h2 : valueLe b c = true) : valueLe a c = true := by
  unfold valueLe at *
  simp only [Bool.or_eq_true, decide_eq_true_eq, Bool.and_eq_true, beq_iff_eq] at *
  rcases h1 with h1 | ⟨h1, h1s⟩ <;> rcases h2 with h2 | ⟨h2, h2s⟩
  · left; omega
  · left; omega
  · left; omega
  · right; exact ⟨h1.trans h2, sameLe_trans a b c h1 h2 h1s h2s⟩

/-- Modelled from the spec: the structured error kinds of §7 (engine source
missing). -/
inductive Err where
  | parseError (msg : String)
  | notFound (name : String)
  | alreadyExists (name : String)
  | arityMismatch
  | typeMismatch
  | ioError
  | formatError
deriving DecidableEq, Repr

/-- Comparison operators of the predicate grammar. -/
inductive CmpOp where
  | eq | ne | lt | le | gt | ge
deriving DecidableEq, Repr

/-- Modelled from the spec: WHERE predicate AST — comparisons between a column
reference and a literal, bare boolean columns, and AND conjunction. -/
inductive Pred where
  | cmp (col : String) (op : CmpOp) (lit : Value)
  | boolCol (col : String)
  | and (p q : Pred)
deriving DecidableEq, Repr

/-- Modelled from the spec: right-hand side of a SET assignment. -/
inductive Expr where
  | lit (v : Value)
  | col (n : String)
deriving DecidableEq, Repr

/-- One SET assignment of an UPDATE statement. -/
structure Assign where
  col : String
  e : Expr
deriving DecidableEq, Repr

/-- Sort direction of an ORDER BY clause. -/
inductive Dir where
  | asc | desc
deriving DecidableEq, Repr

/-- ORDER BY clause: column plus optional direction (ASC when absent). -/
structure OrderBy where
  col : String
  dir : Option Dir
deriving DecidableEq, Repr

/-- Modelled from the spec: the SELECT projection — `*`, a column list, or
`COUNT(*) AS alias`. -/
inductive SelCols where
  | star
  | cols (ns : List String)
  | countStar (asName : String)
deriving DecidableEq, Repr

/-- Modelled from the spec: the statement AST produced by the front end. -/
inductive Stmt where
  | create (name : String) (cols : List ColumnDef)
  | insert (name : String) (tuples : List (List Value))
  | update (name : String) (assigns : List Assign) (wh : Option Pred)
  | select (sel : SelCols) (name : String) (wh : Option Pred) (ord : Option OrderBy)
deriving DecidableEq, Repr

/-- Modelled from the spec: coerce a literal to a declared column type.
NULL enters any column (all nullable in v1); an INT literal widens to FLOAT;
any other mismatch (for instance TEXT into INT) is refused. -/
def coerce : ColType → Value → Option Value
  | _, .null => some .null
  | .int, .int i => some (.int i)
  | .float, .real r => some (.real r)
  | .float, .int i => some (.real (i : Rat))
  | .text, .text s => some (.text s)
  | .bool, .bool b => some (.bool b)
  | _, _ => none

/-- Structural traversal of a list under `Option`. -/
def mapOpt {α β : Type} (f : α → Option β) : List α → Option (List β)
  | [] => some []
  | x :: xs =>
    match f x, mapOpt f xs with
    | some y, some ys => some (y :: ys)
    | _, _ => none

/-- Structural traversal of a list under `Except`, stopping at the first
error. -/
def mapExc {α β ε : Type} (f : α → Except ε β) : List α → Except ε (List β)
  | [] => .ok []
  | x :: xs =>
    match f x with
    | .error e => .error e
    | .ok y =>
      match mapExc f xs with
      | .error e => .error e
      | .ok ys => .ok (y :: ys)

/-- Modelled from the spec: build a row from a value tuple, checking arity then
coercing each value to its column's declared type. -/
def coerceRow (cols : List ColumnDef) (vals : List Value) : Except Err Row :=
  if vals.length ≠ cols.length then .error .arityMismatch
  else
    match mapOpt (fun p => coerce p.1.ty p.2) (List.zip cols vals) with
    | some r => .ok r
    | none => .error .typeMismatch

/-- Tri-state comparison of two values: `none` is SQL's unknown. NULL compares
unknown against everything, including NULL itself; numerics compare across
INT/FLOAT; other mixed-type comparisons are unknown. -/
def triCompare : Value → Value → Option Ordering
  | .null, _ => none
  | _, .null => none
  | .int x, .int y => some (compare x y)
  | .real x, .real y => some (compare x y)
  | .int x, .real y => some (compare (x : Rat) y)
  | .real x, .int y => some (compare x (y : Rat))
  | .text x, .text y => some (compare x y)
  | .bool x, .bool y => some (compare x y)
  | _, _ => none

/-- Interpret a comparison operator over an `Ordering`. -/
def applyCmp (op : CmpOp) (o : Ordering) : Bool :=
  match op with
  | .eq => o == .eq
  | .ne => o != .eq
  | .lt => o == .lt
  | .le => o != .gt
  | .gt => o == .gt
  | .ge => o != .lt

/-- Tri-state comparison under an operator. -/
def evalCmp (op : CmpOp) (a b : Value) : Option Bool :=
  (triCompare a b).map (applyCmp op)

/-- Kleene three-valued AND over `Option Bool`. -/
def triAnd : Option Bool → Option Bool → Option Bool
  | some false, _ => some false
  | _, some false => some false
  | some true, some true => some true
  | _, _ => none

/-- Modelled from the spec: tri-state predicate evaluation against one row
(columns already resolved by the executor, so lookups here do not fail). -/
def evalPred (cols : List ColumnDef) : Pred → Row → Option Bool
  | .cmp c op lit, row =>
    match colIndex cols c with
    | some i => evalCmp op (row.getD i .null) lit
    | none => none
  | .boolCol c, row =>
    match colIndex cols c with
    | some i =>
      match row.getD i .null with
      | .bool b => some b
      | _ => none
    | none => none
  | .and p q, row => triAnd (evalPred cols p row) (evalPred cols q row)

/-- A row matches when the WHERE predicate is present and evaluates to true, or
when there is no WHERE clause; unknown (NULL) and false both exclude the row. -/
def rowMatches (cols : List ColumnDef) (wh : Option Pred) (row : Row) : Bool :=
  match wh with
  | none => true
  | some p => evalPred cols p row == some true

/-- Generic ordered insertion for the stable sort (insertion before the first
element the new one is `le` to keeps earlier-inserted equals in front). -/
def ordInsert {α : Type} (le : α → α → Bool) (a : α) : List α → List α
  | [] => [a]
  | b :: l => if le a b then a :: b :: l else b :: ordInsert le a l

/-- Stable insertion sort over a boolean total preorder. -/
def sortBy {α : Type} (le : α → α → Bool) : List α → List α
  | [] => []
  | b :: l => ordInsert le b (sortBy le l)

/-- Sort key of a row under an ORDER BY clause. -/
def keyOf (cols : List ColumnDef) (ob : OrderBy) (r : Row) : Value :=
  match colIndex cols ob.col with
  | some i => r.getD i .null
  | none => .null

/-- Direction-aware value ordering; ASC is the default when no direction was
written. -/
def dirLe (d : Dir) (x y : Value) : Bool :=
  match d with
  | .asc => valueLe x y
  | .desc => valueLe y x

/-- Row ordering induced by an ORDER BY clause. -/
def rowLe (cols : List ColumnDef) (ob : OrderBy) (a b : Row) : Bool :=
  dirLe (ob.dir.getD .asc) (keyOf cols ob a) (keyOf cols ob b)

/-- Modelled from the spec: ORDER BY sorts the filtered result set by the named
column's value ordering, stably (engine source missing). -/
def sortRows (cols : List ColumnDef) (ob : OrderBy) (rows : List Row) : List Row :=
  sortBy (rowLe cols ob) rows

/-- Evaluate a SET right-hand side against the row's pre-update values. -/
def evalExpr (cols : List ColumnDef) (row : Row) : Expr → Value
  | .lit v => v
  | .col n =>
    match colIndex cols n with
    | some i => row.getD i .null
    | none => .null

/-- One SET assignment applied to the accumulator, its right-hand side read
from the original row. -/
def setStep (cols : List ColumnDef) (orig : Row) (acc : Row) (a : Assign) : Row :=
  match colIndex cols a.col with
  | some i => acc.set i (evalExpr cols orig a.e)
  | none => acc

/-- Modelled from the spec: apply all assignments to one row; every right-hand
side is evaluated against the original row, so assignments do not see each
other's effects (engine source missing). -/
def applyAssigns (cols : List ColumnDef) (assigns : List Assign) (row : Row) : Row :=
  assigns.foldl (setStep cols row) row

/-- Modelled from the spec: full-table scan rewriting matching rows in place and
counting them (engine source missing). -/
def updateRows (cols : List ColumnDef) (wh : Option Pred) (assigns : List Assign) :
    List Row → List Row × Nat
  | [] => ([], 0)
  | r :: rs =>
    let rest := updateRows cols wh assigns rs
    if rowMatches cols wh r then (applyAssigns cols assigns r :: rest.1, rest.2 + 1)
    else (r :: rest.1, rest.2)

/-- Columns referenced by a predicate. -/
def predCols : Pred → List String
  | .cmp c _ _ => [c]
  | .boolCol c => [c]
  | .and p q => predCols p ++ predCols q

/-- Resolve a list of column names, failing with NotFound on the first unknown
one. -/
def checkCols (cols : List ColumnDef) (ns : List String) : Except Err Unit :=
  match ns.find? (fun n => (colIndex cols n).isNone) with
  | some n => .error (.notFound n)
  | none => .ok ()

/-- Resolve every column a WHERE clause references. -/
def checkWhere (cols : List ColumnDef) (wh : Option Pred) : Except Err Unit :=
  match wh with
  | none => .ok ()
  | some p => checkCols cols (predCols p)

/-- Modelled from the spec: an executor outcome — a row set for SELECT or a
mutation count for DDL/DML. -/
inductive ExecOk where
  | rowSet (colNames : List String) (rows : List Row)
  | affected (n : Nat)
deriving DecidableEq, Repr

/-- Replace the table stored under a (case-insensitive) name. -/
def setTable (c : Catalog) (n : String) (t : Table) : Catalog :=
  c.map (fun u => if nameEq u.schema.name n then t else u)

/-- Project one row onto a list of resolved column names. -/
def projectRow (cols : List ColumnDef) (ns : List String) (r : Row) : Row :=
  ns.map
    (fun n =>
      match colIndex cols n with
      | some i => r.getD i .null
      | none => .null)

/-- Modelled from the spec: interpret one statement against the live catalog
(engine source missing). Errors return the catalog untouched: statements are
atomic, and an INSERT coerces every tuple before committing any (all-or-nothing
per statement). -/
def execStmt (c : Catalog) : Stmt → Except Err ExecOk × Catalog
  | .create n cols =>
    match getTable c n with
    | some _ => (.error (.alreadyExists n), c)
    | none => (.ok (.affected 0), c ++ [⟨⟨n, cols⟩, []⟩])
  | .insert n tuples =>
    match getTable c n with
    | none => (.error (.notFound n), c)
    | some t =>
      match mapExc (coerceRow t.schema.cols) tuples with
      | .error e => (.error e, c)
      | .ok newRows =>
        (.ok (.affected tuples.length), setTable c n ⟨t.schema, t.rows ++ newRows⟩)
  | .update n assigns wh =>
    match getTable c n with
    | none => (.error (.notFound n), c)
    | some t =>
      match checkWhere t.schema.cols wh with
      | .error e => (.error e, c)
      | .ok _ =>
        match checkCols t.schema.cols (assigns.map Assign.col) with
        | .error e => (.error e, c)
        | .ok _ =>
          let res := updateRows t.schema.cols wh assigns t.rows
          (.ok (.affected res.2), setTable c n ⟨t.schema, res.1⟩)
  | .select sel n wh ord =>
    match getTable c n with
    | none => (.error (.notFound n), c)
    | some t =>
      match checkWhere t.schema.cols wh with
      | .error e => (.error e, c)
      | .ok _ =>
        let filtered := t.rows.filter (rowMatches t.schema.cols wh)
        match sel with
        | .countStar a => (.ok (.rowSet [a] [[.int filtered.length]]), c)
        | .star =>
          match ord with
          | none => (.ok (.rowSet (t.schema.cols.map ColumnDef.name) filtered), c)
          | some ob =>
            match colIndex t.schema.cols ob.col with
            | none => (.error (.notFound ob.col), c)
            | some _ =>
              (.ok (.rowSet (t.schema.cols.map ColumnDef.name)
                (sortRows t.schema.cols ob filtered)), c)
        | .cols ns =>
          match checkCols t.schema.cols ns with
          | .error e => (.error e, c)
          | .ok _ =>
            match ord with
            | none =>
              (.ok (.rowSet ns (filtered.map (projectRow t.schema.cols ns))), c)
            | some ob =>
              match colIndex t.schema.cols ob.col with
              | none => (.error (.notFound ob.col), c)
              | some _ =>
                (.ok (.rowSet ns ((sortRows t.schema.cols ob filtered).map
                  (projectRow t.schema.cols ns))), c)

/-- Tokens of the persistence byte stream (primitive fields, self-describing). -/
inductive Tok where
  | n (x : Nat)
  | i (x : Int)
  | q (x : Rat)
  | s (x : String)
  | b (x : Bool)
deriving DecidableEq, Repr

/-- Encode one value (tag token then payload). -/
def encVal : Value → List Tok
  | .null => [.n 0]
  | .bool x => [.n 1, .b x]
  | .int x => [.n 2, .i x]
  | .real x => [.n 3, .q x]
  | .text x => [.n 4, .s x]

/-- Decode one value, returning the remaining stream. -/
def decVal : List Tok → Option (Value × List Tok)
  | .n 0 :: r => some (.null, r)
  | .n 1 :: .b x :: r => some (.bool x, r)
  | .n 2 :: .i x :: r => some (.int x, r)
  | .n 3 :: .q x :: r => some (.real x, r)
  | .n 4 :: .s x :: r => some (.text x, r)
  | _ => none

/-- Length-prefixed sequence encoding. -/
def encSeq {α : Type} (enc : α → List Tok) (xs : List α) : List Tok :=
  .n xs.length :: List.flatten (xs.map enc)

/-- Decode a counted sequence of items. -/
def decCount {α : Type} (dec : List Tok → Option (α × List Tok)) :
    Nat → List Tok → Option (List α × List Tok)
  | 0, r => some ([], r)
  | k + 1, r =>
    match dec r with
    | none => none
    | some (a, r1) =>
      match decCount dec k r1 with
      | none => none
      | some (xs, r2) => some (a :: xs, r2)

/-- Decode a length-prefixed sequence. -/
def decSeq {α : Type} (dec : List Tok → Option (α × List Tok)) (r : List Tok) :
    Option (List α × List Tok) :=
  match r with
  | .n k :: r1 => decCount dec k r1
  | _ => none

/-- Encode a column type tag. -/
def encColType : ColType → Tok
  | .int => .n 0
  | .text => .n 1
  | .float => .n 2
  | .bool => .n 3

/-- Encode a column definition. -/
def encColDef (cd : ColumnDef) : List Tok :=
  [.s cd.name, encColType cd.ty]

/-- Decode a column definition. -/
def decColDef : List Tok → Option (ColumnDef × List Tok)
  | .s nm :: .n 0 :: r => some (⟨nm, .int⟩, r)
  | .s nm :: .n 1 :: r => some (⟨nm, .text⟩, r)
  | .s nm :: .n 2 :: r => some (⟨nm, .float⟩, r)
  | .s nm :: .n 3 :: r => some (⟨nm, .bool⟩, r)
  | _ => none

/-- Encode a whole table: name, columns, then every row in order. -/
def encTable (t : Table) : List Tok :=
  .s t.schema.name :: (encSeq encColDef t.schema.cols ++ encSeq (encSeq encVal) t.rows)

/-- Decode a whole table. -/
def decTable (r : List Tok) : Option (Table × List Tok) :=
  match r with
  | .s nm :: r1 =>
    match decSeq decColDef r1 with
    | none => none
    | some (cols, r2) =>
      match decSeq (decSeq decVal) r2 with
      | none => none
      | some (rows, r3) => some (⟨⟨nm, cols⟩, rows⟩, r3)
  | _ => none

/-- Modelled from the spec: `save` encodes the entire catalog into a
self-describing, versioned stream (engine source missing). Format version 1. -/
def encodeCatalog (c : Catalog) : List Tok :=
  .n 1 :: encSeq encTable c

/-- Modelled from the spec: `load` decodes a stream back into a catalog,
rejecting an unknown leading format version or trailing garbage (engine source
missing). -/
def decodeCatalog : List Tok → Option Catalog
  | .n 1 :: r =>
    (match decSeq decTable r with
     | some (c, []) => some c
     | _ => none)
  | _ => none

/-- Modelled from the spec: the process-wide database handle — one live catalog
plus the file system reachable through Save/Load paths. -/
structure DB where
  cat : Catalog
  files : List (String × List Tok)
deriving DecidableEq, Repr

/-- Write (or overwrite) one file. -/
def storeFile (fs : List (String × List Tok)) (p : String) (v : List Tok) :
    List (String × List Tok) :=
  match fs with
  | [] => [(p, v)]
  | e :: rest => if e.1 = p then (p, v) :: rest else e :: storeFile rest p v

/-- Read one file. -/
def lookupFile (fs : List (String × List Tok)) (p : String) : Option (List Tok) :=
  match fs with
  | [] => none
  | e :: rest => if e.1 = p then some e.2 else lookupFile rest p

/-- Modelled from the spec: `Save` serializes the live catalog verbatim to the
named file. -/
def saveDB (db : DB) (path : String) : DB × Except Err Unit :=
  (⟨db.cat, storeFile db.files path (encodeCatalog db.cat)⟩, .ok ())

/-- Modelled from the spec: `Reset` replaces the live catalog with an empty
one. -/
def resetDB (db : DB) : DB :=
  ⟨[], db.files⟩

/-- Modelled from the spec: `Load` atomically replaces the live catalog with the
decoded one; a missing file is an IoError and a corrupt stream a FormatError,
both leaving the live catalog untouched. -/
def loadDB (db : DB) (path : String) : DB × Except Err Unit :=
  match lookupFile db.files path with
  | none => (db, .error .ioError)
  | some ts =>
    match decodeCatalog ts with
    | none => (db, .error .formatError)
    | some c => (⟨c, db.files⟩, .ok ())

/-- JSON values as they cross the ABI boundary. -/
inductive Json where
  | null
  | str (s : String)
  | num (q : Rat)
  | jbool (b : Bool)
  | arr (xs : List Json)
  | obj (kvs : List (String × Json))

/-- Look a key up in a JSON object's field list (first occurrence). -/
def jGet (kvs : List (String × Json)) (k : String) : Option Json :=
  match kvs with
  | [] => none
  | e :: rest => if e.1 = k then some e.2 else jGet rest k

/-- Human-readable message for a structured error. -/
def errMessage : Err → String
  | .parseError m => "parse error: " ++ m
  | .notFound n => "not found: " ++ n
  | .alreadyExists n => "already exists: " ++ n
  | .arityMismatch => "arity mismatch"
  | .typeMismatch => "type mismatch"
  | .ioError => "io error"
  | .formatError => "format error"

/-- Encode one cell for the wire envelope. -/
def valueToJson : Value → Json
  | .null => .null
  | .bool b => .jbool b
  | .int i => .num (i : Rat)
  | .real r => .num r
  | .text s => .str s

/-- One result row as a JSON object keyed by projected column names. -/
def rowObj (names : List String) (r : Row) : Json :=
  .obj ((names.zip r).map (fun p => (p.1, valueToJson p.2)))

/-- Modelled from the spec: the ABI layer wraps every executor outcome in a
uniform envelope — `status: ok` with `rows` for SELECT, `status: ok` with
`rows_affected` for DDL/DML, `status: error` with a message otherwise (engine
source missing). It is total: every outcome yields an envelope. -/
def encodeResult : Except Err ExecOk → Json
  | .ok (.rowSet names rows) =>
    .obj [("status", .str "ok"), ("rows", .arr (rows.map (rowObj names)))]
  | .ok (.affected n) =>
    .obj [("status", .str "ok"), ("rows_affected", .num (n : Rat))]
  | .error e =>
    .obj [("status", .str "error"), ("error", .str (errMessage e))]

/-- Outcome of a Python call: a returned value or a raised exception. -/
inductive PyResult where
  | ok (v : Json)
  | err (msg : String)

/-- True when a Python call raised. -/
def PyResult.isErr : PyResult → Bool
  | .ok _ => false
  | .err _ => true

/-- The decoded payload carries a `status` field equal to the string `ok`. -/
def decodedStatusOk (payload : Option Json) : Bool :=
  match payload with
  | some (.obj kvs) =>
    match jGet kvs "status" with
    | some (.str st) => st == "ok"
    | _ => false
  | _ => false

/-- Embedded from `src/bindings/python/example.py`, `TinySQL._handle_response`:
the argument models the C result pointer — `none` is a NULL pointer; otherwise
the payload models what `ctypes.string_at` + `json.loads` yield (`none` inside
for a decode failure). Returns the call outcome paired with the number of
`TinySQLFree` calls made. A NULL pointer raises RuntimeError before the
`try`/`finally` block, so nothing is freed; otherwise the `finally` clause frees
exactly once on every path, and `.get` on a non-object raises AttributeError. -/
def handle_response (ptr : Option (Option Json)) : PyResult × Nat :=
  match ptr with
  | none => (.err "tinySQL returned a NULL pointer", 0)
  | some payload =>
    let body : PyResult :=
      match payload with
      | none => .err "json decode or unicode decode failure"
      | some j =>
        match j with
        | .obj kvs =>
          (match jGet kvs "status" with
           | some (.str "ok") => .ok (.obj kvs)
           | _ =>
             .err
               (match jGet kvs "error" with
                | some (.str m) => m
                | _ => "unknown tinySQL error"))
        | _ => .err "AttributeError"
    (body, 1)

/-- Case-folded table name — the key under which uniqueness is maintained. -/
def nameKey (t : Table) : List Nat := lowerKey t.schema.name

/-- Catalog invariant: table names are unique case-insensitively. -/
def WfCat (c : Catalog) : Prop := (c.map nameKey).Nodup

/-- The last assignment (later SET items overwrite earlier ones) whose column
resolves to position `j`. -/
def lastAssign (cols : List ColumnDef) (j : Nat) : List Assign → Option Expr
  | [] => none
  | a :: rest =>
    match lastAssign cols j rest with
    | some e => some e
    | none => if colIndex cols a.col == some j then some a.e else none

/-- True when an executor outcome is a success. -/
def isOkResult : Except Err ExecOk → Bool
  | .ok _ => true
  | .error _ => false

/-- The wrapper argument models a successfully decoded ok-status envelope. -/
def ptrStatusOk (ptr : Option (Option Json)) : Bool :=
  match ptr with
  | none => false
  | some p => decodedStatusOk p

/-! ### Codec round-trip lemmas -/

theorem decVal_encVal (v : Value) (r : List Tok) : decVal (encVal v ++ r) = some (v, r) := by
  cases v <;> rfl

theorem decCount_flatten {α : Type} (dec : List Tok → Option (α × List Tok))
    (enc : α → List Tok) (h : ∀ a r, dec (enc a ++ r) = some (a, r)) :
    ∀ (xs : List α) (r : List Tok),
      decCount dec xs.length (List.flatten (xs.map enc) ++ r) = some (xs, r) := by
  intro xs
  induction xs with
  | nil => intro r; rfl
  | cons x xs ih =>
    intro r
    simp only [List.map_cons, List.flatten_cons, List.length_cons, List.append_assoc]
    simp only [decCount, h, ih]

theorem decSeq_encSeq {α : Type} (dec : List Tok → Option (α × List Tok))
    (enc : α → List Tok) (h : ∀ a r, dec (enc a ++ r) = some (a, r))
    (xs : List α) (r : List Tok) : decSeq dec (encSeq enc xs ++ r) = some (xs, r) := by
  simp only [encSeq, List.cons_append, decSeq, decCount_flatten dec enc h]

theorem decColDef_encColDef (cd : ColumnDef) (r : List Tok) :
    decColDef (encColDef cd ++ r) = some (cd, r) := by
  cases cd with
  | mk nm ty => cases ty <;> rfl

theorem decTable_encTable (t : Table) (r : List Tok) :
    decTable (encTable t ++ r) = some (t, r) := by
  cases t with
  | mk schema rows =>
    cases schema with
    | mk nm cols =>
      simp only [encTable, List.cons_append, List.append_assoc, decTable,
        decSeq_encSeq decColDef encColDef decColDef_encColDef,
        decSeq_encSeq (decSeq decVal) (encSeq encVal)
          (decSeq_encSeq decVal encVal decVal_encVal)]

theorem decodeCatalog_encodeCatalog (c : Catalog) :
    decodeCatalog (encodeCatalog c) = some c := by
  have h := decSeq_encSeq decTable encTable decTable_encTable c []
  rw [List.append_nil] at h
  simp only [encodeCatalog, decodeCatalog, h]

theorem lookupFile_storeFile (fs : List (String × List Tok)) (p : String) (v : List Tok) :
    lookupFile (storeFile fs p v) p = some v := by
  induction fs with
  | nil => simp [storeFile, lookupFile]
  | cons e rest ih =>
    by_cases h : e.1 = p
    · simp [storeFile, h, lookupFile]
    · simp [storeFile, h, lookupFile, ih]

/-- C1: for every catalog state S, Save then Reset then Load restores a catalog
observably equal to S — same tables, same schemas with the same column order and
types, same rows in the same order with the same values (structural equality of
the catalog), with Real values carried exactly. -/
theorem save_reset_load_roundtrip (db : DB) (path : String) :
    (loadDB (resetDB (saveDB db path).1) path).2 = Except.ok () ∧
    ((loadDB (resetDB (saveDB db path).1) path).1).cat = db.cat := by
  simp only [saveDB, resetDB, loadDB, lookupFile_storeFile, decodeCatalog_encodeCatalog]
  exact ⟨trivial, trivial⟩

/-! ### Stable sort lemmas -/

theorem valueLe_refl (v : Value) : valueLe v v = true := by
  cases v with
  | null => rfl
  | bool b => cases b <;> rfl
  | int i => simp [valueLe, sameLe]
  | real r => simp [valueLe, sameLe]
  | text s => simp [valueLe, sameLe]

theorem mem_ordInsert {α : Type} (le : α → α → Bool) (a x : α) :
    ∀ l : List α, x ∈ ordInsert le a l ↔ x = a ∨ x ∈ l := by
  intro l
  induction l with
  | nil => simp [ordInsert]
  | cons b l ih =>
    cases hab : le a b
    · simp [ordInsert, hab, ih]; tauto
    · simp [ordInsert, hab]

theorem pairwise_ordInsert {α : Type} (le : α → α → Bool)
    (htot : ∀ x y, le x y = true ∨ le y x = true)
    (htr : ∀ x y z, le x y = true → le y z = true → le x z = true)
    (a : α) :
    ∀ l : List α, l.Pairwise (fun x y => le x y = true) →
      (ordInsert le a l).Pairwise (fun x y => le x y = true) := by
  intro l
  induction l with
  | nil => intro _; simp [ordInsert]
  | cons b l ih =>
    intro hl
    rcases List.pairwise_cons.mp hl with ⟨hb, hl2⟩
    cases hab : le a b
    · rw [ordInsert, if_neg (by simp [hab])]
      refine List.pairwise_cons.mpr ⟨?_, ih hl2⟩
      intro x hx
      rcases (mem_ordInsert le a x l).mp hx with hxa | hx2
      · rcases htot a b with h2 | h2
        · rw [hab] at h2; exact absurd h2 (by simp)
        · rw [hxa]; exact h2
      · exact hb x hx2
    · rw [ordInsert, if_pos hab]
      refine List.pairwise_cons.mpr ⟨?_, hl⟩
      intro x hx
      rcases List.mem_cons.mp hx with rfl | hx2
      · exact hab
      · exact htr a b x hab (hb x hx2)

theorem pairwise_sortBy {α : Type} (le : α → α → Bool)
    (htot : ∀ x y, le x y = true ∨ le y x = true)
    (htr : ∀ x y z, le x y = true → le y z = true → le x z = true) :
    ∀ l : List α, (sortBy le l).Pairwise (fun x y => le x y = true) := by
  intro l
  induction l with
  | nil => simp [sortBy]
  | cons b l ih => exact pairwise_ordInsert le htot htr b _ ih

theorem filter_ordInsert_pos {α : Type} (le : α → α → Bool) (p : α → Bool) (a : α)
    (hpa : p a = true) :
    ∀ l : List α, (∀ x ∈ l, p x = true → le a x = true) →
      (ordInsert le a l).filter p = a :: l.filter p := by
  intro l
  induction l with
  | nil => intro _; simp [ordInsert, hpa]
  | cons b l ih =>
    intro h
    cases hab : le a b
    · have hpb : p b = false := by
        cases hpb2 : p b
        · rfl
        · have := h b (List.mem_cons_self b l) hpb2
          rw [hab] at this; exact absurd this (by simp)
      rw [ordInsert, if_neg (by simp [hab])]
      rw [List.filter_cons_of_neg (by simp [hpb]), List.filter_cons_of_neg (by simp [hpb])]
      exact ih (fun x hx hpx => h x (List.mem_cons_of_mem b hx) hpx)
    · rw [ordInsert, if_pos hab, List.filter_cons_of_pos (by simp [hpa])]

theorem filter_ordInsert_neg {α : Type} (le : α → α → Bool) (p : α → Bool) (a : α)
    (hpa : p a = false) :
    ∀ l : List α, (ordInsert le a l).filter p = l.filter p := by
  intro l
  induction l with
  | nil => simp [ordInsert, hpa]
  | cons b l ih =>
    cases hab : le a b
    · rw [ordInsert, if_neg (by simp [hab])]
      cases hpb : p b
      · rw [List.filter_cons_of_neg (by simp [hpb]), List.filter_cons_of_neg (by simp [hpb]), ih]
      · rw [List.filter_cons_of_pos (by simp [hpb]), List.filter_cons_of_pos (by simp [hpb]), ih]
    · rw [ordInsert, if_pos hab, List.filter_cons_of_neg (by simp [hpa])]

theorem filter_sortBy {α : Type} (le : α → α → Bool) (p : α → Bool)
    (hrefl : ∀ x y, p x = true → p y = true → le x y = true) :
    ∀ l : List α, (sortBy le l).filter p = l.filter p := by
  intro l
  induction l with
  | nil => rfl
  | cons b l ih =>
    cases hpb : p b
    · rw [sortBy, filter_ordInsert_neg le p b hpb, ih, List.filter_cons_of_neg (by simp [hpb])]
    · rw [sortBy, filter_ordInsert_pos le p b hpb _ (fun x _ hpx => hrefl b x hpb hpx), ih,
        List.filter_cons_of_pos (by simp [hpb])]

theorem rowLe_total (cols : List ColumnDef) (ob : OrderBy) (a b : Row) :
    rowLe cols ob a b = true ∨ rowLe cols ob b a = true := by
  unfold rowLe dirLe
  cases ob.dir.getD .asc
  · exact valueLe_total _ _
  · exact (valueLe_total _ _).symm

theorem rowLe_trans (cols : List ColumnDef) (ob : OrderBy) (a b c : Row)
    (h1 : rowLe cols ob a b = true) (h2 : rowLe cols ob b c = true) :
    rowLe cols ob a c = true := by
  unfold rowLe dirLe at *
  cases hd : ob.dir.getD .asc <;> simp only [hd] at h1 h2 ⊢
  · exact valueLe_trans _ _ _ h1 h2
  · exact valueLe_trans _ _ _ h2 h1

/-- C4: with ORDER BY, the result is sorted by the named column's value ordering
in the requested direction (ASC when none is given), the sort is stable (rows
with equal keys keep their prior scan order), and the executor produces exactly
the stable sort of the filtered scan for a `SELECT *`. -/
theorem orderBy_sorted_stable (cols : List ColumnDef) (ob : OrderBy) (rows : List Row) :
    (sortRows cols ob rows).Pairwise (fun a b => rowLe cols ob a b = true) ∧
    (∀ k : Value, (sortRows cols ob rows).filter (fun r => keyOf cols ob r == k) =
      rows.filter (fun r => keyOf cols ob r == k)) ∧
    (ob.dir = none → sortRows cols ob rows = sortRows cols ⟨ob.col, some Dir.asc⟩ rows) ∧
    (∀ (c : Catalog) (n : String) (t : Table) (wh : Option Pred) (i : Nat),
      getTable c n = some t → checkWhere t.schema.cols wh = .ok () →
      colIndex t.schema.cols ob.col = some i →
      execStmt c (.select .star n wh (some ob)) =
        (.ok (.rowSet (t.schema.cols.map ColumnDef.name)
          (sortRows t.schema.cols ob (t.rows.filter (rowMatches t.schema.cols wh)))), c)) := by
  refine ⟨?_, ?_, ?_, ?_⟩
  · exact pairwise_sortBy _ (rowLe_total cols ob) (rowLe_trans cols ob) rows
  · intro k
    refine filter_sortBy _ _ ?_ rows
    intro x y hx hy
    have hx2 : keyOf cols ob x = k := by simpa using hx
    have hy2 : keyOf cols ob y = k := by simpa using hy
    unfold rowLe dirLe
    rw [hx2, hy2]
    cases ob.dir.getD .asc <;> exact valueLe_refl k
  · intro hd
    cases ob with
    | mk obc obd => cases hd; rfl
  · intro c n t wh i h1 h2 h3
    simp only [execStmt, h1, h2, h3]

/-! ### Catalog lookup lemmas -/

theorem getTable_name {c : Catalog} {n : String} {t : Table} (h : getTable c n = some t) :
    nameEq t.schema.name n = true ∧ t ∈ c := by
  unfold getTable at h
  have h1 := List.find?_some h
  have h2 := List.mem_of_find?_eq_some h
  exact ⟨h1, h2⟩

theorem getTable_setTable (c : Catalog) (n : String) (t2 : Table)
    (hn : nameEq t2.schema.name n = true) :
    ∀ {t : Table}, getTable c n = some t → getTable (setTable c n t2) n = some t2 := by
  induction c with
  | nil => intro t h; simp [getTable] at h
  | cons u rest ih =>
    intro t h
    cases hu : nameEq u.schema.name n
    · simp only [getTable, List.find?, hu] at h
      simp only [setTable, List.map_cons, hu, Bool.false_eq_true, if_false,
        getTable, List.find?]
      exact ih h
    · simp only [setTable, List.map_cons, hu, if_true, getTable, List.find?, hn]

/-- C9: `SELECT * FROM t` with no ORDER BY returns the stored rows in insertion
order and leaves the catalog unchanged (so a repeated scan returns the identical
sequence), and INSERT appends at the end, preserving the existing prefix. -/
theorem scan_insertion_order (c : Catalog) (n : String) (t : Table)
    (h : getTable c n = some t) :
    execStmt c (.select .star n none none) =
      (.ok (.rowSet (t.schema.cols.map ColumnDef.name) t.rows), c) ∧
    (∀ tuples newRows, mapExc (coerceRow t.schema.cols) tuples = Except.ok newRows →
      ∃ t2, getTable (execStmt c (.insert n tuples)).2 n = some t2 ∧
        t2.rows = t.rows ++ newRows ∧ t2.schema = t.schema) := by
  constructor
  · simp only [execStmt, h, checkWhere]
    rw [show List.filter (rowMatches t.schema.cols none) t.rows = t.rows from
      List.filter_eq_self.mpr (fun r _ => rfl)]
  · intro tuples newRows hm
    simp only [execStmt, h, hm]
    exact ⟨⟨t.schema, t.rows ++ newRows⟩,
      getTable_setTable c n _ (getTable_name h).1 h, rfl, rfl⟩

/-- Witness for C9 at a concrete one-table catalog. -/
theorem scan_insertion_order_witness :
    execStmt [⟨⟨"users", [⟨"id", ColType.int⟩]⟩, [[Value.int 1], [Value.int 2]]⟩]
        (.select .star "users" none none) =
      (.ok (.rowSet ["id"] [[Value.int 1], [Value.int 2]]),
        [⟨⟨"users", [⟨"id", ColType.int⟩]⟩, [[Value.int 1], [Value.int 2]]⟩]) :=
  (scan_insertion_order [⟨⟨"users", [⟨"id", ColType.int⟩]⟩, [[Value.int 1], [Value.int 2]]⟩]
    "users" ⟨⟨"users", [⟨"id", ColType.int⟩]⟩, [[Value.int 1], [Value.int 2]]⟩ rfl).1

/-- Witness for C4 at a concrete unsorted table. -/
theorem orderBy_sorted_stable_witness :
    execStmt [⟨⟨"users", [⟨"id", ColType.int⟩]⟩, [[Value.int 2], [Value.int 1]]⟩]
        (.select .star "users" none (some ⟨"id", none⟩)) =
      (.ok (.rowSet ["id"] [[Value.int 1], [Value.int 2]]),
        [⟨⟨"users", [⟨"id", ColType.int⟩]⟩, [[Value.int 2], [Value.int 1]]⟩]) := by
  have h := (orderBy_sorted_stable [⟨"id", ColType.int⟩] ⟨"id", none⟩ []).2.2.2
    [⟨⟨"users", [⟨"id", ColType.int⟩]⟩, [[Value.int 2], [Value.int 1]]⟩] "users"
    ⟨⟨"users", [⟨"id", ColType.int⟩]⟩, [[Value.int 2], [Value.int 1]]⟩ none 0 rfl rfl rfl
  rw [h]
  rfl

/-! ### Catalog well-formedness lemmas -/

theorem map_nameKey_setTable (c : Catalog) (n : String) (t2 : Table)
    (hn : nameEq t2.schema.name n = true) :
    (setTable c n t2).map nameKey = c.map nameKey := by
  unfold setTable
  rw [List.map_map]
  apply List.map_congr_left
  intro u _
  have h1 : lowerKey t2.schema.name = lowerKey n := by simpa [nameEq] using hn
  cases h : nameEq u.schema.name n
  · simp [Function.comp, h]
  · have h2 : lowerKey u.schema.name = lowerKey n := by simpa [nameEq] using h
    simp [Function.comp, h, nameKey, h1, h2]

theorem wfCat_setTable {c : Catalog} {n : String} {t2 : Table} (hw : WfCat c)
    (hn : nameEq t2.schema.name n = true) : WfCat (setTable c n t2) := by
  unfold WfCat
  rw [map_nameKey_setTable c n t2 hn]
  exact hw

theorem wfCat_append {c : Catalog} {n : String} (cols : List ColumnDef)
    (rows : List Row) (hw : WfCat c) (hnone : getTable c n = none) :
    WfCat (c ++ [⟨⟨n, cols⟩, rows⟩]) := by
  unfold WfCat
  rw [List.map_append, List.nodup_append]
  refine ⟨hw, by simp, ?_⟩
  unfold getTable at hnone
  rw [List.find?_eq_none] at hnone
  intro a ha hb
  simp only [List.mem_map] at ha
  obtain ⟨u, hu, rfl⟩ := ha
  simp only [List.map_cons, List.map_nil, List.mem_singleton] at hb
  have h1 := hnone u hu
  simp only [nameEq, beq_iff_eq] at h1
  exact h1 (by simpa [nameKey] using hb)

theorem execStmt_select_snd (c : Catalog) (sel : SelCols) (n : String)
    (wh : Option Pred) (ord : Option OrderBy) :
    (execStmt c (.select sel n wh ord)).2 = c := by
  simp only [execStmt]
  repeat' split
  all_goals rfl

theorem execStmt_error_frame (c : Catalog) (s : Stmt)
    (h : isOkResult (execStmt c s).1 = false) : (execStmt c s).2 = c := by
  cases s with
  | create n cols =>
    cases hg : getTable c n <;> simp_all [execStmt, isOkResult]
  | insert n tuples =>
    cases hg : getTable c n with
    | none => simp [execStmt, hg]
    | some t =>
      cases hm : mapExc (coerceRow t.schema.cols) tuples <;>
        simp_all [execStmt, isOkResult]
  | update n assigns wh =>
    cases hg : getTable c n with
    | none => simp [execStmt, hg]
    | some t =>
      cases hw1 : checkWhere t.schema.cols wh with
      | error e => simp [execStmt, hg, hw1]
      | ok u =>
        cases hw2 : checkCols t.schema.cols (assigns.map Assign.col) <;>
          simp_all [execStmt, hg, hw1, isOkResult]
  | select sel n wh ord => exact execStmt_select_snd c sel n wh ord

theorem wfCat_exec (c : Catalog) (s : Stmt) (hw : WfCat c) : WfCat (execStmt c s).2 := by
  cases s with
  | create n cols =>
    cases hg : getTable c n with
    | some t => simp only [execStmt, hg]; exact hw
    | none => simp only [execStmt, hg]; exact wfCat_append cols [] hw hg
  | insert n tuples =>
    cases hg : getTable c n with
    | none => simp only [execStmt, hg]; exact hw
    | some t =>
      cases hm : mapExc (coerceRow t.schema.cols) tuples with
      | error e => simp only [execStmt, hg, hm]; exact hw
      | ok newRows =>
        simp only [execStmt, hg, hm]
        exact wfCat_setTable hw (getTable_name hg).1
  | update n assigns wh =>
    cases hg : getTable c n with
    | none => simp only [execStmt, hg]; exact hw
    | some t =>
      cases hw1 : checkWhere t.schema.cols wh with
      | error e => simp only [execStmt, hg, hw1]; exact hw
      | ok u =>
        cases hw2 : checkCols t.schema.cols (assigns.map Assign.col) with
        | error e => simp only [execStmt, hg, hw1, hw2]; exact hw
        | ok v =>
          simp only [execStmt, hg, hw1, hw2]
          exact wfCat_setTable hw (getTable_name hg).1
  | select sel n wh ord => rw [execStmt_select_snd c sel n wh ord]; exact hw

/-- C6: the catalog keeps table names unique case-insensitively as an invariant
of every operation (statements, reset, and a save/reset/load cycle); CREATE for
an existing name in any casing fails with AlreadyExists and changes nothing; a
reference to a missing name fails with NotFound; lookups are case-insensitive
yet return the stored table with its originally-declared casing. -/
theorem catalog_name_invariants (c : Catalog) (hw : WfCat c) :
    (∀ s : Stmt, WfCat (execStmt c s).2) ∧
    (∀ db : DB, WfCat (resetDB db).cat) ∧
    (∀ fs path, WfCat ((loadDB (resetDB (saveDB ⟨c, fs⟩ path).1) path).1).cat) ∧
    (∀ n cols t, getTable c n = some t →
      execStmt c (.create n cols) = (.error (.alreadyExists n), c)) ∧
    (∀ n, getTable c n = none →
      (execStmt c (.select .star n none none)).1 = .error (.notFound n)) ∧
    (∀ n m, lowerKey n = lowerKey m → getTable c n = getTable c m) ∧
    (∀ n t, getTable c n = some t → t ∈ c ∧ nameEq t.schema.name n = true) := by
  refine ⟨fun s => wfCat_exec c s hw, ?_, ?_, ?_, ?_, ?_, ?_⟩
  · intro db; simp [resetDB, WfCat]
  · intro fs path
    have hcat : ((loadDB (resetDB (saveDB ⟨c, fs⟩ path).1) path).1).cat = c := by
      simp only [saveDB, resetDB, loadDB, lookupFile_storeFile, decodeCatalog_encodeCatalog]
    rw [hcat]; exact hw
  · intro n cols t hg; simp only [execStmt, hg]
  · intro n hg; simp only [execStmt, hg]
  · intro n m h
    have hf : (fun u : Table => nameEq u.schema.name n) =
        (fun u : Table => nameEq u.schema.name m) := by
      funext u; simp [nameEq, h]
    simp [getTable, hf]
  · intro n t hg
    exact ⟨(getTable_name hg).2, (getTable_name hg).1⟩

/-- Witness for C6: creating `USERS` over existing `users` fails with
AlreadyExists and leaves the catalog unchanged. -/
theorem catalog_name_invariants_witness :
    execStmt [⟨⟨"users", []⟩, []⟩] (.create "USERS" []) =
      (.error (.alreadyExists "USERS"), [⟨⟨"users", []⟩, []⟩]) :=
  (catalog_name_invariants [⟨⟨"users", []⟩, []⟩]
    (by simp [WfCat])).2.2.2.1 "USERS" [] ⟨⟨"users", []⟩, []⟩ rfl

/-- C7: every failing statement is atomic — it leaves the catalog (and every
table in it) exactly as it was and reports a structured error value. -/
theorem statement_atomicity (c : Catalog) (s : Stmt)
    (h : isOkResult (execStmt c s).1 = false) :
    (execStmt c s).2 = c ∧ ∃ e : Err, (execStmt c s).1 = .error e := by
  refine ⟨execStmt_error_frame c s h, ?_⟩
  cases hr : (execStmt c s).1 with
  | ok v => rw [hr] at h; simp [isOkResult] at h
  | error e => exact ⟨e, rfl⟩

/-- Witness for C7: selecting from a missing table on an empty catalog. -/
theorem statement_atomicity_witness :
    (execStmt [] (.select .star "users" none none)).2 = ([] : Catalog) ∧
    ∃ e : Err, (execStmt [] (.select .star "users" none none)).1 = .error e :=
  statement_atomicity [] (.select .star "users" none none) rfl

/-! ### Insert validation lemmas -/

theorem mapOpt_isSome {α β : Type} (f : α → Option β) :
    ∀ l : List α, (mapOpt f l).isSome = true ↔ ∀ a ∈ l, (f a).isSome = true := by
  intro l
  induction l with
  | nil => simp [mapOpt]
  | cons x xs ih =>
    cases hx : f x with
    | none => simp [mapOpt, hx]
    | some y =>
      cases hxs : mapOpt f xs with
      | none => simp [mapOpt, hx, hxs, List.forall_mem_cons, ← ih]
      | some ys => simp [mapOpt, hx, hxs, List.forall_mem_cons, ← ih]

theorem coerceRow_ok_iff (cols : List ColumnDef) (vals : List Value) :
    (∃ r, coerceRow cols vals = .ok r) ↔
      vals.length = cols.length ∧
        ∀ p ∈ List.zip cols vals, (coerce p.1.ty p.2).isSome = true := by
  unfold coerceRow
  by_cases hl : vals.length = cols.length
  · have hiff := mapOpt_isSome (fun p : ColumnDef × Value => coerce p.1.ty p.2)
      (List.zip cols vals)
    cases hm : mapOpt (fun p => coerce p.1.ty p.2) (List.zip cols vals) with
    | none =>
      rw [hm] at hiff
      simp only [Option.isSome_none, Bool.false_eq_true, false_iff] at hiff
      simp only [hl, hm]
      simp only [ne_eq, not_true_eq_false, if_false]
      constructor
      · rintro ⟨r, hr⟩; cases hr
      · intro hrhs
        exact absurd hrhs.2 hiff
    | some r =>
      rw [hm] at hiff
      simp only [Option.isSome_some, true_iff] at hiff
      simp [hl, hm]
      exact fun a b hab => hiff (a, b) hab
  · simp [hl]

/-- C2: a tuple is accepted exactly when it has one value per declared column,
each coercible to the column's type; a TEXT literal into an INT column is a
TypeMismatch, an INT literal widens into a FLOAT column, an arity error is
ArityMismatch, and a failing INSERT statement leaves the catalog unchanged. -/
theorem insert_validation (cols : List ColumnDef) (vals : List Value) :
    ((∃ r, coerceRow cols vals = .ok r) ↔
      vals.length = cols.length ∧
        ∀ p ∈ List.zip cols vals, (coerce p.1.ty p.2).isSome = true) ∧
    (∀ s, coerce .int (.text s) = none) ∧
    (∀ i : Int, coerce .float (.int i) = some (.real (i : Rat))) ∧
    (vals.length ≠ cols.length → coerceRow cols vals = .error .arityMismatch) ∧
    (vals.length = cols.length →
      ¬ (∀ p ∈ List.zip cols vals, (coerce p.1.ty p.2).isSome = true) →
      coerceRow cols vals = .error .typeMismatch) ∧
    (∀ (c : Catalog) (n : String) (tuples : List (List Value)),
      isOkResult (execStmt c (.insert n tuples)).1 = false →
      (execStmt c (.insert n tuples)).2 = c) := by
  refine ⟨coerceRow_ok_iff cols vals, fun s => rfl, fun i => rfl, ?_, ?_, ?_⟩
  · intro hl
    unfold coerceRow
    simp [hl]
  · intro hl hbad
    unfold coerceRow
    have hiff := mapOpt_isSome (fun p : ColumnDef × Value => coerce p.1.ty p.2)
      (List.zip cols vals)
    cases hm : mapOpt (fun p => coerce p.1.ty p.2) (List.zip cols vals) with
    | none => simp [hl, hm]
    | some r =>
      rw [hm] at hiff
      simp only [Option.isSome_some, true_iff] at hiff
      exact absurd hiff hbad
  · intro c n tuples h
    exact execStmt_error_frame c (.insert n tuples) h

/-- Witness for C2: inserting a TEXT literal into an INT column fails and leaves
the one-table catalog unchanged. -/
theorem insert_validation_witness :
    (execStmt [⟨⟨"t", [⟨"id", ColType.int⟩]⟩, []⟩]
      (.insert "t" [[Value.text "x"]])).2 = [⟨⟨"t", [⟨"id", ColType.int⟩]⟩, []⟩] :=
  (insert_validation [] []).2.2.2.2.2
    [⟨⟨"t", [⟨"id", ColType.int⟩]⟩, []⟩] "t" [[Value.text "x"]] rfl

/-! ### Update lemmas -/

theorem updateRows_spec (cols : List ColumnDef) (wh : Option Pred) (assigns : List Assign) :
    ∀ rows : List Row,
      (updateRows cols wh assigns rows).1 =
        rows.map (fun r => if rowMatches cols wh r then applyAssigns cols assigns r else r) ∧
      (updateRows cols wh assigns rows).2 = rows.countP (rowMatches cols wh) := by
  intro rows
  induction rows with
  | nil => simp [updateRows]
  | cons r rs ih =>
    cases hr : rowMatches cols wh r <;>
      simp [updateRows, hr, ih.1, ih.2, List.countP_cons]

theorem applyAssigns_aux_getElem? (cols : List ColumnDef) (orig : Row) :
    ∀ (assigns : List Assign) (acc : Row), acc.length = orig.length → ∀ j : Nat,
      (assigns.foldl (setStep cols orig) acc)[j]? =
      (match lastAssign cols j assigns with
       | some e => if j < orig.length then some (evalExpr cols orig e) else none
       | none => acc[j]?) := by
  intro assigns
  induction assigns with
  | nil => intro acc hlen j; simp [lastAssign]
  | cons a rest ih =>
    intro acc hlen j
    rw [List.foldl_cons]
    cases hci : colIndex cols a.col with
    | none =>
      rw [show setStep cols orig acc a = acc from by simp [setStep, hci]]
      rw [ih acc hlen j]
      simp only [lastAssign, hci]
      cases lastAssign cols j rest <;> simp
    | some i =>
      rw [show setStep cols orig acc a = acc.set i (evalExpr cols orig a.e) from by
        simp [setStep, hci]]
      rw [ih (acc.set i (evalExpr cols orig a.e)) (by simp [hlen]) j]
      cases hl : lastAssign cols j rest with
      | some e => simp [lastAssign, hl]
      | none =>
        simp only [lastAssign, hl, hci, List.getElem?_set, hlen]
        by_cases hij : i = j
        · simp [hij]
        · simp [hij, show (some i == some j) = false by simp [hij]]

theorem applyAssigns_getElem? (cols : List ColumnDef) (assigns : List Assign)
    (row : Row) (j : Nat) :
    (applyAssigns cols assigns row)[j]? =
      (match lastAssign cols j assigns with
       | some e => if j < row.length then some (evalExpr cols row e) else none
       | none => row[j]?) := by
  unfold applyAssigns
  exact applyAssigns_aux_getElem? cols row assigns row rfl j

theorem setTable_frame (cat : Catalog) (n : String) (t2 : Table) (i : Nat) (u : Table)
    (hu : cat[i]? = some u) (hne : nameEq u.schema.name n = false) :
    (setTable cat n t2)[i]? = some u := by
  unfold setTable
  rw [List.getElem?_map, hu]
  simp [hne]

/-- C3: UPDATE rewrites exactly the rows whose predicate evaluated true against
their pre-update values, returns their count, leaves every other row and table
untouched, and every assignment's right-hand side reads the row's pre-update
values (assignments do not see each other's effects). -/
theorem update_scoping (cols : List ColumnDef) (wh : Option Pred)
    (assigns : List Assign) (rows : List Row) :
    (updateRows cols wh assigns rows).1 =
      rows.map (fun r => if rowMatches cols wh r then applyAssigns cols assigns r else r) ∧
    (updateRows cols wh assigns rows).2 = rows.countP (rowMatches cols wh) ∧
    (∀ (row : Row) (j : Nat),
      (applyAssigns cols assigns row)[j]? =
        (match lastAssign cols j assigns with
         | some e => if j < row.length then some (evalExpr cols row e) else none
         | none => row[j]?)) ∧
    (∀ (cat : Catalog) (n : String) (i : Nat) (u : Table),
      cat[i]? = some u → nameEq u.schema.name n = false →
      ((execStmt cat (.update n assigns wh)).2)[i]? = some u) ∧
    (∀ (c : Catalog) (n : String) (t : Table),
      getTable c n = some t →
      checkWhere t.schema.cols wh = .ok () →
      checkCols t.schema.cols (assigns.map Assign.col) = .ok () →
      execStmt c (.update n assigns wh) =
        (.ok (.affected (t.rows.countP (rowMatches t.schema.cols wh))),
          setTable c n ⟨t.schema,
            t.rows.map (fun r => if rowMatches t.schema.cols wh r
              then applyAssigns t.schema.cols assigns r else r)⟩)) := by
  refine ⟨(updateRows_spec cols wh assigns rows).1, (updateRows_spec cols wh assigns rows).2,
    applyAssigns_getElem? cols assigns, ?_, ?_⟩
  · intro cat n i u hu hne
    cases hg : getTable cat n with
    | none => simp only [execStmt, hg]; exact hu
    | some t =>
      cases hw1 : checkWhere t.schema.cols wh with
      | error e => simp only [execStmt, hg, hw1]; exact hu
      | ok v =>
        cases hw2 : checkCols t.schema.cols (assigns.map Assign.col) with
        | error e => simp only [execStmt, hg, hw1, hw2]; exact hu
        | ok w =>
          simp only [execStmt, hg, hw1, hw2]
          exact setTable_frame cat n _ i u hu hne
  · intro c n t hg hw1 hw2
    simp only [execStmt, hg, hw1, hw2,
      (updateRows_spec t.schema.cols wh assigns t.rows).1,
      (updateRows_spec t.schema.cols wh assigns t.rows).2]

/-- Witness for C3: the spec's scenario 2 — update one row by key, count 1,
other rows untouched. -/
theorem update_scoping_witness :
    execStmt
      [⟨⟨"users", [⟨"id", ColType.int⟩, ⟨"name", ColType.text⟩]⟩,
        [[Value.int 1, Value.text "Alice"], [Value.int 3, Value.text "Carol"]]⟩]
      (.update "users" [⟨"name", .lit (Value.text "Charlie")⟩]
        (some (.cmp "id" .eq (Value.int 3)))) =
      (.ok (.affected 1),
        [⟨⟨"users", [⟨"id", ColType.int⟩, ⟨"name", ColType.text⟩]⟩,
          [[Value.int 1, Value.text "Alice"], [Value.int 3, Value.text "Charlie"]]⟩]) := by
  have h := (update_scoping [⟨"id", ColType.int⟩, ⟨"name", ColType.text⟩]
      (some (.cmp "id" .eq (Value.int 3))) [⟨"name", .lit (Value.text "Charlie")⟩] []).2.2.2.2
    [⟨⟨"users", [⟨"id", ColType.int⟩, ⟨"name", ColType.text⟩]⟩,
      [[Value.int 1, Value.text "Alice"], [Value.int 3, Value.text "Carol"]]⟩] "users"
    ⟨⟨"users", [⟨"id", ColType.int⟩, ⟨"name", ColType.text⟩]⟩,
      [[Value.int 1, Value.text "Alice"], [Value.int 3, Value.text "Carol"]]⟩ rfl rfl rfl
  rw [h]
  rfl

/-- C5: predicate evaluation is tri-state — a comparison involving NULL is
neither true nor false (NULL compares unknown against everything, itself
included), and SELECT keeps exactly the rows whose WHERE predicate evaluates to
true, excluding both NULL and false outcomes. -/
theorem null_tristate :
    (∀ (op : CmpOp) (v : Value), evalCmp op .null v = none ∧ evalCmp op v .null = none) ∧
    (∀ (cols : List ColumnDef) (p : Pred) (r : Row),
      evalPred cols p r ≠ some true → rowMatches cols (some p) r = false) ∧
    (∀ (cat : Catalog) (n : String) (t : Table) (p : Pred),
      getTable cat n = some t → checkCols t.schema.cols (predCols p) = .ok () →
      execStmt cat (.select .star n (some p) none) =
        (.ok (.rowSet (t.schema.cols.map ColumnDef.name)
          (t.rows.filter (fun r => evalPred t.schema.cols p r == some true))), cat)) := by
  refine ⟨?_, ?_, ?_⟩
  · intro op v
    constructor
    · cases v <;> rfl
    · cases v <;> rfl
  · intro cols p r h
    simp only [rowMatches, beq_eq_false_iff_ne, ne_eq]
    exact h
  · intro cat n t p hg hck
    simp only [execStmt, hg, checkWhere, hck]
    rw [show rowMatches t.schema.cols (some p) =
      (fun r => evalPred t.schema.cols p r == some true) from funext (fun r => rfl)]

/-- Witness for C5: a WHERE over a BOOL column keeps the true row and excludes
both the NULL row and the false row. -/
theorem null_tristate_witness :
    execStmt
      [⟨⟨"t", [⟨"b", ColType.bool⟩]⟩, [[Value.bool true], [Value.null], [Value.bool false]]⟩]
      (.select .star "t" (some (.cmp "b" .eq (Value.bool true))) none) =
      (.ok (.rowSet ["b"] [[Value.bool true]]),
        [⟨⟨"t", [⟨"b", ColType.bool⟩]⟩,
          [[Value.bool true], [Value.null], [Value.bool false]]⟩]) := by
  have h := null_tristate.2.2
    [⟨⟨"t", [⟨"b", ColType.bool⟩]⟩, [[Value.bool true], [Value.null], [Value.bool false]]⟩]
    "t" ⟨⟨"t", [⟨"b", ColType.bool⟩]⟩, [[Value.bool true], [Value.null], [Value.bool false]]⟩
    (.cmp "b" .eq (Value.bool true)) rfl rfl
  rw [h]
  rfl

/-- C8: the ABI layer is total — every executor outcome becomes a `status`
envelope: `ok` with a `rows` key exactly for SELECT results, `ok` with
`rows_affected` exactly for mutations, and `error` with an `error` message
exactly for failures, so the shapes are distinguishable by key presence. -/
theorem envelope_shapes (res : Except Err ExecOk) :
    ∃ kvs, encodeResult res = .obj kvs ∧
      jGet kvs "status" = some (.str (if isOkResult res = true then "ok" else "error")) ∧
      ((∃ j, jGet kvs "rows" = some j) ↔ ∃ names rows, res = .ok (.rowSet names rows)) ∧
      ((∃ j, jGet kvs "rows_affected" = some j) ↔ ∃ k, res = .ok (.affected k)) ∧
      ((∃ j, jGet kvs "error" = some j) ↔ ∃ e, res = .error e) := by
  cases res with
  | ok v =>
    cases v with
    | rowSet names rows =>
      refine ⟨_, rfl, rfl, ?_, ?_, ?_⟩
      · exact iff_of_true ⟨_, rfl⟩ ⟨names, rows, rfl⟩
      · constructor
        · rintro ⟨j, hj⟩; exact nomatch hj
        · rintro ⟨k, hk⟩; simp at hk
      · constructor
        · rintro ⟨j, hj⟩; exact nomatch hj
        · rintro ⟨e, he⟩; simp at he
    | affected k =>
      refine ⟨_, rfl, rfl, ?_, ?_, ?_⟩
      · constructor
        · rintro ⟨j, hj⟩; exact nomatch hj
        · rintro ⟨names, rows, hk⟩; simp at hk
      · exact iff_of_true ⟨_, rfl⟩ ⟨k, rfl⟩
      · constructor
        · rintro ⟨j, hj⟩; exact nomatch hj
        · rintro ⟨e, he⟩; simp at he
  | error e =>
    refine ⟨_, rfl, rfl, ?_, ?_, ?_⟩
    · constructor
      · rintro ⟨j, hj⟩; exact nomatch hj
      · rintro ⟨names, rows, hk⟩; simp at hk
    · constructor
      · rintro ⟨j, hj⟩; exact nomatch hj
      · rintro ⟨k, hk⟩; simp at hk
    · exact iff_of_true ⟨_, rfl⟩ ⟨e, rfl⟩

/-- C10: the Python wrapper frees a non-null result pointer exactly once on
every path — including decode failures and error envelopes — frees nothing and
raises on a NULL pointer, and raises exactly when the pointer is NULL or the
payload does not decode to an object whose `status` is the string `ok`. -/
theorem handle_response_contract (ptr : Option (Option Json)) :
    ((handle_response ptr).2 = if ptr.isSome then 1 else 0) ∧
    (handle_response ptr).1.isErr = !(ptrStatusOk ptr) ∧
    handle_response none = (.err "tinySQL returned a NULL pointer", 0) := by
  refine ⟨?_, ?_, rfl⟩
  · cases ptr <;> rfl
  · cases ptr with
    | none => rfl
    | some payload =>
      cases payload with
      | none => rfl
      | some j =>
        cases j with
        | null => rfl
        | str s => rfl
        | num q => rfl
        | jbool b => rfl
        | arr xs => rfl
        | obj kvs =>
          simp only [handle_response, ptrStatusOk, decodedStatusOk]
          cases hs : jGet kvs "status" with
          | none => rfl
          | some js =>
            cases js with
            | null => rfl
            | num q => rfl
            | jbool b => rfl
            | arr xs => rfl
            | obj kvs2 => rfl
            | str s =>
              by_cases hok : s = "ok"
              · subst hok; rfl
              · have hbeq : (s == "ok") = false := by
                  simpa using hok
                simp [hs, hbeq, PyResult.isErr]
                split <;> simp_all [PyResult.isErr]

end TinySQL
